import Mathlib

/-!
Verification of the document-tailoring pipeline of the job application
packaging service (src/app.py) against its natural-language specification.

The Python source is shallowly embedded over lists of characters:
strings are modelled as List Char, the relevant regular expressions of
src/app.py are modelled by executable matchers specialised to the exact
patterns appearing in the source, and CPython's stable sort
(list.sort / sorted with reverse=True) is modelled by a stable insertion
sort that is proved to be a permutation, sorted, and stable.

Character classes are modelled at ASCII scope, matching the ASCII
semantics of the regex classes appearing in the source.
-/

/-- Strings of the embedded program: Python str values as lists of characters. -/
abbrev Str := List Char

/-- Python whitespace characters at ASCII scope (the regex class backslash-s). -/
def pyIsSpace (c : Char) : Bool :=
  c = ' ' || c = '\t' || c = '\n' || c = '\r' || c = '\x0b' || c = '\x0c'

/-- The regex character class a-zA-Z of the tokenizer in extract_keywords. -/
def pyIsAlpha (c : Char) : Bool :=
  ('a' ≤ c && c ≤ 'z') || ('A' ≤ c && c ≤ 'Z')

/-- ASCII decimal digits. -/
def pyIsDigit (c : Char) : Bool :=
  '0' ≤ c && c ≤ '9'

/-- Python regex word characters (class backslash-w), ASCII scope: these
determine the word boundaries (backslash-b) in the tokenizer pattern. -/
def pyIsWordChar (c : Char) : Bool :=
  pyIsAlpha c || pyIsDigit c || c = '_'

/-- Python str.lower at ASCII scope. -/
def lowerStr (s : Str) : Str := s.map Char.toLower

/-- Python str.upper at ASCII scope. -/
def upperStr (s : Str) : Str := s.map Char.toUpper

/-- Python str.strip with no argument: remove leading and trailing whitespace. -/
def stripWs (s : Str) : Str :=
  ((s.dropWhile pyIsSpace).reverse.dropWhile pyIsSpace).reverse

/-- Whether the pattern is a prefix of the text (executable). -/
def beginsWith : Str → Str → Bool
  | [], _ => true
  | _ :: _, [] => false
  | a :: as, b :: bs => a = b && beginsWith as bs

/-- Python substring containment (the "in" operator on str): the needle
occurs contiguously in the haystack.  The empty needle is contained in
everything, as in Python. -/
def substrB (needle : Str) : Str → Bool
  | [] => beginsWith needle []
  | c :: rest => beginsWith needle (c :: rest) || substrB needle rest

/-!
## Keyword Ranker: extract_keywords (src/app.py lines 76-110)

The tokenizer models re.findall of the pattern
word-boundary [a-zA-Z]{3,} word-boundary over the lowercased text.
Because of the word boundaries, a match is exactly a maximal run of word
characters that consists only of letters and has length at least 3:
a letter run adjacent to a digit or underscore has no boundary and is
rejected by the trailing boundary assertion with full backtracking.
-/

/-- Worker of the tokenizer; the fuel bounds the recursion depth and is
initialised above the string length, which every step shortens. -/
def tokenizeAux : Nat → Str → List Str
  | 0, _ => []
  | _, [] => []
  | fuel + 1, c :: rest =>
    if pyIsWordChar c then
      let run := c :: rest.takeWhile pyIsWordChar
      let rest' := rest.dropWhile pyIsWordChar
      (if 3 ≤ run.length ∧ run.all pyIsAlpha then [run] else []) ++
        tokenizeAux fuel rest'
    else tokenizeAux fuel rest

/-- Tokens of the pattern backslash-b [a-zA-Z]{3,} backslash-b : maximal
word-character runs that are all-alphabetic and of length at least 3. -/
def tokenize (s : Str) : List Str := tokenizeAux (s.length + 1) s

/-- The stop-word set of extract_keywords, transcribed from the source. -/
def stopWords : List Str :=
  ["the", "and", "or", "but", "in", "on", "at", "to", "for", "of", "with",
   "by", "is", "are", "was", "were", "be", "been", "have", "has", "had",
   "do", "does", "did", "will", "would", "could", "should", "may", "might",
   "can", "this", "that", "these", "those", "a", "an", "as", "from", "not",
   "all", "any", "each", "every", "no", "some", "such", "than", "too",
   "very"].map String.data

/-- The token stream surviving tokenization and stop-word filtering:
the value of the local variable "words" in extract_keywords. -/
def survivingTokens (text : Str) : List Str :=
  (tokenize (lowerStr text)).filter (fun w => ¬ w ∈ stopWords)

/-- One step of the frequency-count dictionary:
word_counts[word] = word_counts.get(word, 0) + 1.  Python dicts preserve
insertion order, modelled by an association list where a fresh key is
appended at the end and an existing key is updated in place. -/
def bump (acc : List (Str × Nat)) (w : Str) : List (Str × Nat) :=
  if w ∈ acc.map Prod.fst then
    acc.map (fun p => if p.1 = w then (p.1, p.2 + 1) else p)
  else acc ++ [(w, 1)]

/-- The word_counts dictionary of extract_keywords as an ordered
association list (insertion order = first-seen order). -/
def countsOf (ws : List Str) : List (Str × Nat) :=
  ws.foldl bump []

/-- Insert into a descending-by-count list, after all entries of greater
or equal count: the insertion step of a stable descending sort. -/
def insertDesc (x : Str × Nat) : List (Str × Nat) → List (Str × Nat)
  | [] => [x]
  | y :: ys => if y.2 ≤ x.2 then x :: y :: ys else y :: insertDesc x ys

/-- Stable descending sort by the Nat component: the model of CPython's
sorted(..., key=lambda x: x[1], reverse=True), which is a stable sort.
Stability, sortedness and the permutation property are proved below, and
these three properties determine the output uniquely, so this is a
faithful extensional model of the source's sort. -/
def sortDesc : List (Str × Nat) → List (Str × Nat)
  | [] => []
  | x :: xs => insertDesc x (sortDesc xs)

/-- extract_keywords (src/app.py lines 76-110): tokenize the lowercased
text, drop stop words, count frequencies in first-seen order, sort
descending by frequency (stable), return the first top_k words. -/
def extract_keywords (text : Str) (top_k : Nat) : List Str :=
  let words := survivingTokens text
  if words = [] then []
  else ((sortDesc (countsOf words)).take top_k).map Prod.fst

/-!
## Text Normalizer: the cleaning steps of extract_pdf_text
(src/app.py lines 63-70)

After page extraction the source applies, in this order:
replace the Unicode replacement character with a bullet, remove null
characters, collapse whitespace runs to a single space, surround each
bullet with spaces, and finally strip leading and trailing whitespace.
-/

/-- text.replace(u-fffd, bullet): the Unicode replacement character
becomes a bullet marker. -/
def replaceFFFD (s : Str) : Str :=
  s.map (fun c => if c = '�' then '•' else c)

/-- text.replace(null, empty): null characters are removed. -/
def removeNull (s : Str) : Str :=
  s.filter (fun c => ¬ c = '\x00')

/-- Worker of collapseWs; the fuel bounds the recursion depth and is
initialised above the string length, which every step shortens. -/
def collapseWsAux : Nat → Str → Str
  | 0, _ => []
  | _, [] => []
  | fuel + 1, c :: rest =>
    if pyIsSpace c then ' ' :: collapseWsAux fuel (rest.dropWhile pyIsSpace)
    else c :: collapseWsAux fuel rest

/-- re.sub of one-or-more whitespace with a single space: every maximal
whitespace run is replaced by one space character. -/
def collapseWs (s : Str) : Str := collapseWsAux (s.length + 1) s

/-- text.replace(bullet, space bullet space): each bullet marker is
surrounded with spaces. -/
def respaceBullets (s : Str) : Str :=
  s.flatMap (fun c => if c = '•' then [' ', '•', ' '] else [c])

/-- The Text Normalizer: the cleaning pipeline applied by
extract_pdf_text to the raw extracted text (src/app.py lines 63-70). -/
def normalize_text (raw : Str) : Str :=
  stripWs (respaceBullets (collapseWs (removeNull (replaceFFFD raw))))

/-!
## Section Rewriter: polish_resume (src/app.py lines 113-170)

The three skill-section patterns of the source all have the shape
(ALT1|ALT2|...) [colon-or-whitespace]* ([not-bullet-not-newline]+)
compiled with IGNORECASE.  Alternatives are tried left to right, an
optional trailing S is tried greedily (with, then without), and the
trailing content group backtracks into the colon/whitespace run when it
would otherwise be empty, exactly as CPython's backtracking engine does.
Each alternative is therefore expanded into literal header candidates in
backtracking priority order.
-/

/-- Header literals of the first pattern, in regex backtracking priority
order (each optional trailing S expanded greedily). -/
def alts1 : List Str :=
  ["technical skills", "technical skill", "skills", "skill",
   "technologies", "technologie", "programming languages",
   "programming language", "tools", "tool", "frameworks",
   "framework"].map String.data

/-- Header literals of the second pattern, in priority order. -/
def alts2 : List Str :=
  ["languages", "language", "programming"].map String.data

/-- Header literals of the third pattern, in priority order. -/
def alts3 : List Str :=
  ["frameworks", "framework", "libraries", "librarie", "tools",
   "tool"].map String.data

/-- Characters matched by the [colon-or-whitespace]* part of the
section patterns. -/
def isColonSpace (c : Char) : Bool := c = ':' || pyIsSpace c

/-- Characters matched by the content group [not-bullet-not-newline]+. -/
def isContentChar (c : Char) : Bool := ¬ (c = '•' || c = '\n')

/-- Length of the maximal prefix satisfying the predicate. -/
def countWhile (p : Char → Bool) (l : Str) : Nat := (l.takeWhile p).length

/-- The contiguous slice of s from index a (inclusive) to b (exclusive). -/
def sliceStr (s : Str) (a b : Nat) : Str := (s.drop a).take (b - a)

/-- Try one header literal (already lowercase) at position i of s,
case-insensitively.  Returns the index just after the header. -/
def tryAlt (alt : Str) (s : Str) (i : Nat) : Option Nat :=
  if lowerStr ((s.drop i).take alt.length) = alt then some (i + alt.length)
  else none

/-- Match the suffix [colon-or-whitespace]* ([content]+) starting at
index j: greedily consume the colon/whitespace run, then require a
nonempty content run; if the content would be empty, backtrack the
colon/whitespace run from the right to the nearest character that the
content class can absorb (any of its characters except a newline).
Returns (content group start, match end). -/
def suffixMatch (s : Str) (j : Nat) : Option (Nat × Nat) :=
  let k := j + countWhile isColonSpace (s.drop j)
  let r := countWhile isContentChar (s.drop k)
  if 0 < r then some (k, k + r)
  else
    match (sliceStr s j k).reverse.findIdx? (fun c => ¬ c = '\n') with
    | some m =>
      let k' := k - 1 - m
      some (k', k' + countWhile isContentChar (s.drop k'))
    | none => none

/-- Try every header alternative in priority order at position i; on a
header hit the suffix must also match, otherwise the next alternative is
tried, as the backtracking engine does.  Returns
(header end, content start, match end). -/
def matchAt : List Str → Str → Nat → Option (Nat × Nat × Nat)
  | [], _, _ => none
  | alt :: rest, s, i =>
    match tryAlt alt s i with
    | some j =>
      match suffixMatch s j with
      | some (cs, me) => some (j, cs, me)
      | none => matchAt rest s i
    | none => matchAt rest s i

/-- One regex match of a section pattern: (group 0, group 1, group 2) =
(whole match, header, content), as character lists from the scanned
string. -/
abbrev SectionMatch := Str × Str × Str

/-- re.finditer: scan left to right, emit non-overlapping matches,
resuming after each match.  The fuel argument bounds the scan and is
initialised to more than the string length. -/
def scanMatches (alts : List Str) (s : Str) : Nat → Nat → List SectionMatch
  | 0, _ => []
  | fuel + 1, i =>
    if i < s.length then
      match matchAt alts s i with
      | some (hEnd, cStart, mEnd) =>
        (sliceStr s i mEnd, sliceStr s i hEnd, sliceStr s cStart mEnd) ::
          scanMatches alts s fuel mEnd
      | none => scanMatches alts s fuel (i + 1)
    else []

/-- All matches of one section pattern over s, in order of occurrence. -/
def findMatches (alts : List Str) (s : Str) : List SectionMatch :=
  scanMatches alts s (s.length + 1) 0

/-- The delimiter class [comma semicolon bullet newline] of the item
split in polish_resume. -/
def isDelimChar (c : Char) : Bool :=
  c = ',' || c = ';' || c = '•' || c = '\n'

/-- Worker of pySplitDelims; the fuel bounds the recursion depth and is
initialised above the string length, which every step shortens. -/
def pySplitDelimsAux : Nat → Str → List Str
  | 0, s => [s]
  | _, [] => [[]]
  | fuel + 1, c :: rest =>
    if isDelimChar c then [] :: pySplitDelimsAux fuel (rest.dropWhile isDelimChar)
    else
      match pySplitDelimsAux fuel rest with
      | p :: ps => (c :: p) :: ps
      | [] => [[c]]

/-- re.split on one-or-more delimiters: the pieces between maximal
delimiter runs (empty pieces can appear at the ends, as in Python). -/
def pySplitDelims (s : Str) : List Str := pySplitDelimsAux (s.length + 1) s

/-- items = [item.strip() for item in re.split(delims, content) if item.strip()]:
split the section content, strip each piece, keep the nonempty ones. -/
def parseItems (content : Str) : List Str :=
  ((pySplitDelims content).map stripWs).filter (fun it => ¬ it = [])

/-- Score of one item: the number of keywords whose lowercase form is a
substring of the lowercase item (containment only, duplicates in the
keyword list each count). -/
def scoreItem (keywords : List Str) (item : Str) : Nat :=
  keywords.countP (fun kw => substrB (lowerStr kw) (lowerStr item))

/-- The reordering step applied to one matched section content: parse
the items, score each, stable-sort descending by score, return the items
in their new order. -/
def reorderContent (keywords : List Str) (content : Str) : List Str :=
  (sortDesc ((parseItems content).map
    (fun it => (it, scoreItem keywords it)))).map Prod.fst

/-- Join with the separator (used with comma-space, as in the source's
join calls). -/
def joinWith (sep : Str) : List Str → Str
  | [] => []
  | [x] => x
  | x :: y :: rest => x ++ sep ++ joinWith sep (y :: rest)

/-- Worker of pyReplace (old is nonempty at every call from pyReplace);
the fuel bounds the recursion depth and is initialised above the string
length, which every step shortens. -/
def pyReplaceAux (old new : Str) : Nat → Str → Str
  | 0, s => s
  | _, [] => []
  | fuel + 1, c :: rest =>
    if beginsWith old (c :: rest) then
      new ++ pyReplaceAux old new fuel (rest.drop (old.length - 1))
    else c :: pyReplaceAux old new fuel rest

/-- Python str.replace(old, new): every non-overlapping occurrence of
old is replaced, scanning left to right.  The call sites in
polish_resume always pass a nonempty old string (a whole regex match);
for the degenerate empty pattern the text is modelled as unchanged. -/
def pyReplace (s old new : Str) : Str :=
  if old.length = 0 then s else pyReplaceAux old new (s.length + 1) s

/-- Process one regex match as the loop body of polish_resume does:
parse and score the items of the content group, stable-sort them
descending, rebuild the section as header colon-space items joined by
comma-space, and substitute it into the current text with the given
replacement primitive.  An all-empty item list is skipped. -/
def processMatch (rep : Str → Str → Str → Str) (keywords : List Str)
    (polished : Str) (m : SectionMatch) : Str :=
  if parseItems m.2.2 = [] then polished
  else
    rep polished m.1
      (m.2.1 ++ (": ".data) ++ joinWith (", ".data) (reorderContent keywords m.2.2))

/-- Run one pattern over the current text: the matches are computed once
over the text as it is when the pattern's finditer is created, then each
match is substituted in order into the (possibly already rewritten)
text, exactly as the source loop does. -/
def runPattern (rep : Str → Str → Str → Str) (keywords : List Str)
    (alts : List Str) (text : Str) : Str :=
  (findMatches alts text).foldl (processMatch rep keywords) text

/-- The three pattern passes of polish_resume, parameterised by the
replacement primitive (the source uses Python str.replace). -/
def polishCoreWith (rep : Str → Str → Str → Str) (keywords : List Str)
    (text : Str) : Str :=
  runPattern rep keywords alts3
    (runPattern rep keywords alts2 (runPattern rep keywords alts1 text))

/-- The tailored banner block prepended by polish_resume: blank line,
TAILORED FOR title AT company with the first five keywords, and an
80-character rule line. -/
def mkTailoredHeader (job_title company_name : Str) (keywords : List Str) : Str :=
  "\n\nTAILORED FOR ".data ++ upperStr job_title ++ " AT ".data ++
    upperStr company_name ++ ": ".data ++
    joinWith (", ".data) (keywords.take 5) ++ "\n".data ++
    List.replicate 80 '=' ++ "\n".data

/-- polish_resume (src/app.py lines 113-170): rewrite each matched skill
section with its items stable-sorted by keyword score, substituting with
Python str.replace, then prepend the tailored banner. -/
def polish_resume (resume_text : Str) (keywords : List Str)
    (job_title company_name : Str) : Str :=
  mkTailoredHeader job_title company_name keywords ++
    polishCoreWith pyReplace keywords resume_text

/-- Modelled from the spec: replace only the first exact occurrence of
old in s, leaving any later identical occurrences unchanged (the
substitution step as the specification words it). -/
def replaceFirstOcc : Str → Str → Str → Str
  | [], _, _ => []
  | c :: rest, old, new =>
    if beginsWith old (c :: rest) then new ++ rest.drop (old.length - 1)
    else c :: replaceFirstOcc rest old new

/-- Worker of occSplit, with the same fuel discipline as pyReplaceAux so
that the two recursions align step for step. -/
def occSplitAux (old : Str) : Nat → Str → List Str
  | 0, s => [s]
  | _, [] => [[]]
  | fuel + 1, c :: rest =>
    if beginsWith old (c :: rest) then
      [] :: occSplitAux old fuel (rest.drop (old.length - 1))
    else
      match occSplitAux old fuel rest with
      | p :: ps => (c :: p) :: ps
      | [] => [[c]]

/-- Split s at every non-overlapping leftmost occurrence of old,
returning the segments between occurrences (always at least one
segment). -/
def occSplit (s old : Str) : List Str := occSplitAux old (s.length + 1) s

/-- Modelled from the spec (amended): replace every exact occurrence of
old in s, written independently of pyReplace as a split at the
occurrences rejoined with the replacement; the degenerate empty pattern
leaves the text unchanged, as at the source's call sites. -/
def replaceEveryOcc (s old new : Str) : Str :=
  if old.length = 0 then s else joinWith new (occSplit s old)

/-- The Section Rewriter exactly as the specification words its
substitution step: identical to polish_resume except that only the
first exact occurrence of each matched span is replaced. -/
def polishResumeFirstOcc (resume_text : Str) (keywords : List Str)
    (job_title company_name : Str) : Str :=
  mkTailoredHeader job_title company_name keywords ++
    polishCoreWith replaceFirstOcc keywords resume_text

/-- The Section Rewriter with the amended substitution step: every
exact occurrence of each matched span is replaced. -/
def polishResumeEveryOcc (resume_text : Str) (keywords : List Str)
    (job_title company_name : Str) : Str :=
  mkTailoredHeader job_title company_name keywords ++
    polishCoreWith replaceEveryOcc keywords resume_text

/-!
## External text generator and Tailoring Orchestrator
(generate_cover_with_ollama, src/app.py lines 173-211;
process_job, src/app.py lines 313-390)

The HTTP layer, the filesystem and the PDF writer are external
collaborators: the environment records the form fields, whether each
template file exists (and its extracted text), the outcome of the
single external text-generator call, and whether each of the two PDF
render calls succeeds.  The orchestrator itself is the sequential
pipeline of the source, and it additionally records the trace of
pipeline events so that "rejected before any keyword ranking or
rendering occurs" is expressible.
-/

/-- The configured Ollama endpoint (src/app.py line 37). -/
def ollamaUrl : Str := "http://localhost:11434/api/generate".data

/-- Result of the one external text-generator call: an HTTP response
with a status code and an optional generated-text field, or a transport
error (requests.exceptions.RequestException). -/
inductive OllamaResult where
  | ok (status : Nat) (response : Option Str)
  | transportError
deriving DecidableEq

/-- generate_cover_with_ollama (src/app.py lines 173-211): on HTTP 200
return the response field (empty if absent); on any other status or on
a transport error return a human-readable error string and never
raise.  The prompt argument inputs are the resume text, the template
and the job fields, which only shape the outgoing request. -/
def generate_cover_with_ollama (resume_text cover_template job_title
    company_name job_description : Str) (result : OllamaResult) : Str :=
  match result with
  | .ok status response =>
    if status = 200 then response.getD []
    else "Error generating cover letter: Ollama API returned ".data ++
      (Nat.repr status).data
  | .transportError =>
    "Error: Could not connect to Ollama. Please ensure Ollama is running on ".data ++
      ollamaUrl

/-- The external call failed: non-success status or transport error. -/
def ollamaFailed : OllamaResult → Prop
  | .ok status _ => ¬ status = 200
  | .transportError => True

instance : DecidablePred ollamaFailed := by
  intro r
  cases r with
  | ok s resp => exact inferInstanceAs (Decidable (¬ s = 200))
  | transportError => exact inferInstanceAs (Decidable True)

/-- The human-readable error string substituted as the cover-letter
body when the external call fails. -/
def ollamaFailureMessage : OllamaResult → Str
  | .ok status _ =>
    "Error generating cover letter: Ollama API returned ".data ++
      (Nat.repr status).data
  | .transportError =>
    "Error: Could not connect to Ollama. Please ensure Ollama is running on ".data ++
      ollamaUrl

/-- The tailoring request form fields, as posted. -/
structure JobForm where
  job_title : Str
  company_name : Str
  job_description : Str
deriving DecidableEq

/-- The orchestrator's environment: the request plus the state of its
external collaborators (template files on disk, the text generator, the
PDF renderer). -/
structure PipelineEnv where
  form : JobForm
  resume_template : Option Str
  cover_template : Option Str
  ollama : OllamaResult
  resume_render_ok : Bool
  cover_render_ok : Bool
deriving DecidableEq

/-- Observable pipeline steps, recorded in execution order. -/
inductive PipelineEvent where
  | rankKeywords
  | polishResume
  | generateCover
  | renderResume
  | renderCover
  | bundle
deriving DecidableEq

/-- The orchestrator's terminal answer: an error message with no
artifacts, or the keyword list plus the two document bodies. -/
inductive JobOutcome where
  | error (message : Str)
  | success (keywords : List Str) (resume_body cover_body : Str)
deriving DecidableEq

/-- process_job (src/app.py lines 313-390): validate the stripped form
fields, require both templates, rank keywords, polish the resume, call
the text generator, render both documents and bundle them.  The second
component is the trace of pipeline events that occurred. -/
def process_job (env : PipelineEnv) : JobOutcome × List PipelineEvent :=
  let jt := stripWs env.form.job_title
  let cn := stripWs env.form.company_name
  let jd := stripWs env.form.job_description
  if jt = [] ∨ cn = [] ∨ jd = [] then
    (.error "All fields are required".data, [])
  else
    match env.resume_template with
    | none => (.error "Resume template not found. Please upload a resume first.".data, [])
    | some resume_text =>
      match env.cover_template with
      | none => (.error "Cover letter template not found. Please upload a cover letter first.".data, [])
      | some cover_template =>
        let keywords := extract_keywords jd 10
        let polished := polish_resume resume_text keywords jt cn
        let cover := generate_cover_with_ollama resume_text cover_template jt cn jd env.ollama
        if env.resume_render_ok && env.cover_render_ok then
          (.success keywords polished cover,
           [.rankKeywords, .polishResume, .generateCover,
            .renderResume, .renderCover, .bundle])
        else
          (.error "Failed to create PDF files".data,
           [.rankKeywords, .polishResume, .generateCover,
            .renderResume, .renderCover])

/-!
## Predicates used to state the normalizer claims
-/

/-- Adjacent-pair discipline for bullets: whenever one of two adjacent
characters is a bullet marker, the other is a space.  Holding along the
whole string, this says every bullet is immediately preceded and
followed by a space except at the string boundaries. -/
def bulletOK (a b : Char) : Prop := (a = '•' → b = ' ') ∧ (b = '•' → a = ' ')

instance : ∀ a b, Decidable (bulletOK a b) := by
  intro a b
  exact inferInstanceAs (Decidable (_ ∧ _))

/-- Every whitespace run is a single character: no two adjacent
whitespace characters (the claim's reading of "collapsed to a single
space"). -/
def singleSpaceRuns (s : Str) : Prop :=
  List.Chain' (fun a b => ¬ (pyIsSpace a = true ∧ pyIsSpace b = true)) s

/-- The claim's strict bullet property: every bullet marker has a space
immediately before it and immediately after it (no boundary exemption). -/
def strictBulletSpaced (s : Str) : Prop :=
  ∀ pre post, s = pre ++ '•' :: post →
    pre.getLast? = some ' ' ∧ post.head? = some ' '

/-- Index of the first occurrence of w in a token list (list length if
absent): the tie-break key of the ranking claims. -/
def firstIdx (w : Str) : List Str → Nat
  | [] => 0
  | x :: xs => if x = w then 0 else firstIdx w xs + 1

/-!
# Theorems

Helper lemmas first, then one theorem (plus witness or counterexample
where applicable) per claim.
-/

set_option maxRecDepth 40000

theorem beginsWith_self (l : Str) : beginsWith l l = true := by
  induction l with
  | nil => rfl
  | cons c rest ih => simp [beginsWith, ih]

theorem substrB_append_right (pre s : Str) : substrB s (pre ++ s) = true := by
  induction pre with
  | nil =>
    cases s with
    | nil => rfl
    | cons c rest => simp [substrB, beginsWith_self]
  | cons c rest ih =>
    simp only [List.cons_append, substrB, Bool.or_eq_true]
    exact Or.inr ih

theorem insertDesc_perm (x : Str × Nat) (l : List (Str × Nat)) :
    (insertDesc x l).Perm (x :: l) := by
  induction l with
  | nil => exact List.Perm.refl _
  | cons y ys ih =>
    by_cases h : y.2 ≤ x.2
    · simp [insertDesc, h]
    · simp only [insertDesc, h, if_neg, ite_false]
      exact (List.Perm.cons y ih).trans (List.Perm.swap x y ys)

theorem sortDesc_perm (l : List (Str × Nat)) : (sortDesc l).Perm l := by
  induction l with
  | nil => exact List.Perm.refl _
  | cons x xs ih =>
    exact (insertDesc_perm x (sortDesc xs)).trans (ih.cons x)

theorem mem_insertDesc {z x : Str × Nat} {l : List (Str × Nat)} :
    z ∈ insertDesc x l ↔ z = x ∨ z ∈ l := by
  rw [(insertDesc_perm x l).mem_iff, List.mem_cons]

theorem mem_sortDesc {z : Str × Nat} {l : List (Str × Nat)} :
    z ∈ sortDesc l ↔ z ∈ l := (sortDesc_perm l).mem_iff

theorem insertDesc_pairwise {Q : Str × Nat → Str × Nat → Prop}
    {x : Str × Nat} {l : List (Str × Nat)}
    (hx : ∀ y ∈ l, Q x y)
    (hl : l.Pairwise (fun a b => b.2 < a.2 ∨ (a.2 = b.2 ∧ Q a b))) :
    (insertDesc x l).Pairwise (fun a b => b.2 < a.2 ∨ (a.2 = b.2 ∧ Q a b)) := by
  induction l with
  | nil => simp [insertDesc]
  | cons y ys ih =>
    rcases List.pairwise_cons.mp hl with ⟨hy, hys⟩
    by_cases h : y.2 ≤ x.2
    · simp only [insertDesc, h, ite_true]
      refine List.pairwise_cons.mpr ⟨?_, hl⟩
      intro z hz
      have hzmem : z = y ∨ z ∈ ys := List.mem_cons.mp hz
      have hQz : Q x z := hx z hz
      have hzle : z.2 ≤ x.2 := by
        rcases hzmem with rfl | hz'
        · exact h
        · have hyz := hy z hz'
          rcases hyz with h1 | ⟨h1, _⟩
          · exact Nat.le_trans (Nat.le_of_lt h1) h
          · exact Nat.le_trans (Nat.le_of_eq h1.symm) h
      rcases Nat.lt_or_ge z.2 x.2 with hlt | hge
      · exact Or.inl hlt
      · exact Or.inr ⟨Nat.le_antisymm hge hzle, hQz⟩
    · simp only [insertDesc, h, ite_false]
      refine List.pairwise_cons.mpr
        ⟨?_, ih (fun z hz => hx _ (List.mem_cons_of_mem _ hz)) hys⟩
      intro z hz
      rcases mem_insertDesc.mp hz with rfl | hz'
      · exact Or.inl (Nat.lt_of_not_le h)
      · exact hy z hz'

theorem sortDesc_pairwise {Q : Str × Nat → Str × Nat → Prop}
    {l : List (Str × Nat)} (hl : l.Pairwise Q) :
    (sortDesc l).Pairwise (fun a b => b.2 < a.2 ∨ (a.2 = b.2 ∧ Q a b)) := by
  induction l with
  | nil => simp [sortDesc]
  | cons x xs ih =>
    rcases List.pairwise_cons.mp hl with ⟨hx, hxs⟩
    exact insertDesc_pairwise
      (fun y hy => hx y (mem_sortDesc.mp hy)) (ih hxs)

/-- C6: the reordering step of the Section Rewriter never drops or adds
items: for every matched section content and keyword list, the multiset
of items written back after reordering equals the multiset of items
parsed from the content before reordering. -/
theorem reorder_preserves_item_multiset (keywords : List Str) (content : Str) :
    (↑(reorderContent keywords content) : Multiset Str) =
      (↑(parseItems content) : Multiset Str) := by
  rw [Multiset.coe_eq_coe]
  have h1 := (sortDesc_perm ((parseItems content).map
    (fun it => (it, scoreItem keywords it)))).map Prod.fst
  have h2 : ((parseItems content).map
      (fun it => (it, scoreItem keywords it))).map Prod.fst = parseItems content := by
    simp only [List.map_map]
    generalize parseItems content = l
    induction l with
    | nil => rfl
    | cons a l ih => simp only [List.map_cons, Function.comp_apply, ih]
  rw [reorderContent]
  rw [h2] at h1
  exact h1

/-- C2 (counterexample): on the end-to-end example job description the
keyword ranker does not return the sequence claimed by the
specification, because the token "looking" is not in the code's
stop-word set and precedes the claimed keywords. -/
theorem extract_keywords_example_counterexample :
    extract_keywords "Looking for a Python developer with Flask and Docker experience".data 5 ≠
      ["python".data, "developer".data, "flask".data, "docker".data, "experience".data] := by
  decide

/-- C2 (amended): on the example job description with top_k = 5 the
keyword ranker returns exactly [looking, python, developer, flask,
docker]: all six surviving tokens occur once, so the stable sort keeps
first-occurrence order and truncation keeps the first five. -/
theorem extract_keywords_example_actual :
    extract_keywords "Looking for a Python developer with Flask and Docker experience".data 5 =
      ["looking".data, "python".data, "developer".data, "flask".data, "docker".data] := by
  decide

/-- C3: for the resume text "SKILLS: Java, Python, SQL" and the keyword
list [python], the Section Rewriter's output contains the section
rewritten as "SKILLS: Python, Java, SQL": the matching item moves first
and the others keep their relative order, for every job title and
company name. -/
theorem polish_resume_skills_example (job_title company_name : Str) :
    substrB "SKILLS: Python, Java, SQL".data
      (polish_resume "SKILLS: Java, Python, SQL".data ["python".data]
        job_title company_name) = true := by
  have h : polishCoreWith pyReplace ["python".data] "SKILLS: Java, Python, SQL".data =
      "SKILLS: Python, Java, SQL".data := by decide
  rw [polish_resume, h]
  exact substrB_append_right _ _

/-- C4 (counterexample): the Section Rewriter does not replace only the
first exact occurrence of a matched span.  On a resume whose first
matched span reoccurs as a prefix of a second, longer section, Python
str.replace rewrites the second occurrence too, and the result differs
from the first-occurrence-only semantics the claim states. -/
theorem polish_resume_first_occurrence_counterexample :
    polish_resume "SKILLS: b, a\nSKILLS: b, a extra".data ["a".data] "T".data "C".data ≠
      polishResumeFirstOcc "SKILLS: b, a\nSKILLS: b, a extra".data ["a".data]
        "T".data "C".data := by
  decide

/-- C5: for any resume text in which none of the three section patterns
matches (headerless or malformed text), the Section Rewriter returns
the original text unchanged, still wrapped in the tailored banner
block; the function is total, so it never raises. -/
theorem polish_resume_headerless_banner (resume_text : Str) (keywords : List Str)
    (job_title company_name : Str)
    (h1 : findMatches alts1 resume_text = [])
    (h2 : findMatches alts2 resume_text = [])
    (h3 : findMatches alts3 resume_text = []) :
    polish_resume resume_text keywords job_title company_name =
      mkTailoredHeader job_title company_name keywords ++ resume_text := by
  simp only [polish_resume, polishCoreWith, runPattern]
  rw [h1, List.foldl_nil, h2, List.foldl_nil, h3, List.foldl_nil]

/-- C5 (witness): the headerless text "hello world" has no pattern
match, and the rewriter returns it banner-wrapped and unchanged. -/
theorem polish_resume_headerless_banner_witness :
    (findMatches alts1 "hello world".data = [] ∧
     findMatches alts2 "hello world".data = [] ∧
     findMatches alts3 "hello world".data = []) ∧
    polish_resume "hello world".data [] "T".data "C".data =
      mkTailoredHeader "T".data "C".data [] ++ "hello world".data :=
  ⟨⟨by decide, by decide, by decide⟩,
    polish_resume_headerless_banner "hello world".data [] "T".data "C".data
      (by decide) (by decide) (by decide)⟩

theorem occSplitAux_ne_nil (old : Str) : ∀ (fuel : Nat) (s : Str),
    occSplitAux old fuel s ≠ [] := by
  intro fuel s
  match fuel, s with
  | 0, s => simp [occSplitAux]
  | fuel + 1, [] => simp [occSplitAux]
  | fuel + 1, c :: rest =>
    simp only [occSplitAux]
    by_cases h : beginsWith old (c :: rest) = true
    · simp [h]
    · simp only [h, ite_false]
      cases hsplit : occSplitAux old fuel rest with
      | nil => simp
      | cons p ps => simp

theorem joinWith_cons_of_ne_nil (sep a : Str) {l : List Str} (h : l ≠ []) :
    joinWith sep (a :: l) = a ++ sep ++ joinWith sep l := by
  cases l with
  | nil => exact absurd rfl h
  | cons x xs => rfl

theorem joinWith_cons_head (sep : Str) (c : Char) (p : Str) (ps : List Str) :
    joinWith sep ((c :: p) :: ps) = c :: joinWith sep (p :: ps) := by
  cases ps with
  | nil => rfl
  | cons q qs => simp [joinWith, List.cons_append]

theorem pyReplaceAux_eq_join (old new : Str) : ∀ (fuel : Nat) (s : Str),
    pyReplaceAux old new fuel s = joinWith new (occSplitAux old fuel s) := by
  intro fuel
  induction fuel with
  | zero => intro s; simp [pyReplaceAux, occSplitAux, joinWith]
  | succ fuel ih =>
    intro s
    cases s with
    | nil => simp [pyReplaceAux, occSplitAux, joinWith]
    | cons c rest =>
      by_cases h : beginsWith old (c :: rest) = true
      · simp only [pyReplaceAux, occSplitAux, if_pos h]
        rw [joinWith_cons_of_ne_nil new [] (occSplitAux_ne_nil old fuel _),
          ih (rest.drop (old.length - 1))]
        simp
      · simp only [pyReplaceAux, occSplitAux, if_neg h]
        cases hsplit : occSplitAux old fuel rest with
        | nil => exact absurd hsplit (occSplitAux_ne_nil old fuel rest)
        | cons p ps =>
          show c :: pyReplaceAux old new fuel rest = joinWith new ((c :: p) :: ps)
          rw [joinWith_cons_head, ← hsplit, ← ih rest]

theorem pyReplace_eq_replaceEveryOcc (s old new : Str) :
    pyReplace s old new = replaceEveryOcc s old new := by
  rw [pyReplace, replaceEveryOcc]
  by_cases h : old.length = 0
  · simp [h]
  · simp only [h, ite_false]
    exact pyReplaceAux_eq_join old new (s.length + 1) s

/-- C4 (amended): after reordering, the Section Rewriter reconstructs
the section as header, colon-space, the reordered items joined by
comma-space, and substitutes it by textually replacing EVERY exact
occurrence of the original matched span in the text (Python str.replace
semantics): identical occurrences elsewhere are rewritten too. -/
theorem polish_resume_replaces_every_occurrence (resume_text : Str)
    (keywords : List Str) (job_title company_name : Str) :
    polish_resume resume_text keywords job_title company_name =
      polishResumeEveryOcc resume_text keywords job_title company_name := by
  have hrep : pyReplace = replaceEveryOcc :=
    funext fun s => funext fun old => funext fun new =>
      pyReplace_eq_replaceEveryOcc s old new
  rw [polish_resume, polishResumeEveryOcc, hrep]

theorem respaceBullets_head_ne_bullet (s : Str) {y : Char}
    (h : (respaceBullets s).head? = some y) : ¬ y = '•' := by
  cases s with
  | nil => simp [respaceBullets] at h
  | cons d rest =>
    by_cases hd : d = '•'
    · subst hd
      simp [respaceBullets] at h
      subst h
      decide
    · simp [respaceBullets, hd] at h
      subst h
      exact hd

theorem chain'_bulletOK_respaceBullets (s : Str) :
    List.Chain' bulletOK (respaceBullets s) := by
  induction s with
  | nil => simp [respaceBullets]
  | cons c rest ih =>
    have hsplit : respaceBullets (c :: rest) =
        (if c = '•' then [' ', '•', ' '] else [c]) ++ respaceBullets rest := by
      simp [respaceBullets]
    rw [hsplit]
    rw [List.chain'_append]
    refine ⟨?_, ih, ?_⟩
    · by_cases hc : c = '•'
      · simp only [hc, ite_true]
        rw [List.chain'_cons, List.chain'_cons]
        exact ⟨⟨fun h => absurd h (by decide), fun _ => rfl⟩,
          ⟨fun _ => rfl, fun h => absurd h (by decide)⟩,
          List.chain'_singleton _⟩
      · simp [hc]
    · intro x hx y hy
      have hxne : ¬ x = '•' := by
        by_cases hc : c = '•'
        · simp [hc] at hx
          subst hx
          decide
        · simp [hc] at hx
          subst hx
          exact hc
      have hyne : ¬ y = '•' := respaceBullets_head_ne_bullet rest hy
      exact ⟨fun hx' => absurd hx' hxne, fun hy' => absurd hy' hyne⟩

theorem chain'_dropWhile {R : Char → Char → Prop} (p : Char → Bool) :
    ∀ {l : Str}, List.Chain' R l → List.Chain' R (l.dropWhile p)
  | [], h => by simpa using h
  | a :: l, h => by
    by_cases hp : p a = true
    · simp only [List.dropWhile_cons, hp, ite_true]
      exact chain'_dropWhile p h.tail
    · simpa [List.dropWhile_cons, hp] using h

theorem chain'_bulletOK_reverse {l : Str} (h : List.Chain' bulletOK l) :
    List.Chain' bulletOK l.reverse := by
  rw [List.chain'_reverse]
  exact h.imp fun a b hab => ⟨hab.2, hab.1⟩

theorem chain'_bulletOK_stripWs {l : Str} (h : List.Chain' bulletOK l) :
    List.Chain' bulletOK (stripWs l) := by
  rw [stripWs]
  exact chain'_bulletOK_reverse (chain'_dropWhile _
    (chain'_bulletOK_reverse (chain'_dropWhile _ h)))

theorem mem_stripWs {c : Char} {l : Str} (h : c ∈ stripWs l) : c ∈ l := by
  rw [stripWs] at h
  rw [List.mem_reverse] at h
  have h1 := (List.dropWhile_sublist _).subset h
  rw [List.mem_reverse] at h1
  exact (List.dropWhile_sublist _).subset h1

theorem collapseWsAux_space_only : ∀ (fuel : Nat) (s : Str),
    ∀ c ∈ collapseWsAux fuel s, pyIsSpace c = true → c = ' ' := by
  intro fuel
  induction fuel with
  | zero => intro s c hc; simp [collapseWsAux] at hc
  | succ fuel ih =>
    intro s c hc hsp
    cases s with
    | nil => simp [collapseWsAux] at hc
    | cons a rest =>
      by_cases ha : pyIsSpace a = true
      · simp only [collapseWsAux, if_pos ha, List.mem_cons] at hc
        rcases hc with rfl | hc'
        · rfl
        · exact ih _ c hc' hsp
      · simp only [collapseWsAux, if_neg ha, List.mem_cons] at hc
        rcases hc with rfl | hc'
        · exact absurd hsp ha
        · exact ih _ c hc' hsp

theorem respaceBullets_space_only {s : Str}
    (hs : ∀ c ∈ s, pyIsSpace c = true → c = ' ') :
    ∀ c ∈ respaceBullets s, pyIsSpace c = true → c = ' ' := by
  intro c hc hsp
  rw [respaceBullets, List.mem_flatMap] at hc
  obtain ⟨d, hd, hcd⟩ := hc
  by_cases hdb : d = '•'
  · have hcd' : c = ' ' ∨ c = '•' ∨ c = ' ' := by simpa [hdb] using hcd
    rcases hcd' with h1 | h1 | h1
    · exact h1
    · rw [h1] at hsp
      exact absurd hsp (by decide)
    · exact h1
  · have hcd' : c = d := by simpa [hdb] using hcd
    rw [hcd']
    exact hs d hd (hcd' ▸ hsp)

theorem head_dropWhile_not (p : Char → Bool) :
    ∀ {l : Str} {a : Char}, (l.dropWhile p).head? = some a → ¬ p a = true
  | [], a, h => by simp at h
  | b :: l, a, h => by
    by_cases hp : p b = true
    · rw [List.dropWhile_cons, if_pos hp] at h
      exact head_dropWhile_not p h
    · rw [List.dropWhile_cons, if_neg hp] at h
      simp at h
      subst h
      exact hp

theorem collapseWsAux_head_not_space : ∀ (fuel : Nat) (s : Str),
    (∀ a, s.head? = some a → ¬ pyIsSpace a = true) →
    ∀ y, (collapseWsAux fuel s).head? = some y → ¬ pyIsSpace y = true := by
  intro fuel s hs y hy
  match fuel, s with
  | 0, s => simp [collapseWsAux] at hy
  | fuel + 1, [] => simp [collapseWsAux] at hy
  | fuel + 1, a :: rest =>
    by_cases ha : pyIsSpace a = true
    · exact absurd ha (hs a rfl)
    · rw [collapseWsAux, if_neg ha] at hy
      simp at hy
      subst hy
      exact ha

theorem chain'_singleSpace_collapseWsAux : ∀ (fuel : Nat) (s : Str),
    List.Chain' (fun a b => ¬ (pyIsSpace a = true ∧ pyIsSpace b = true))
      (collapseWsAux fuel s) := by
  intro fuel
  induction fuel with
  | zero => intro s; simp [collapseWsAux]
  | succ fuel ih =>
    intro s
    cases s with
    | nil => simp [collapseWsAux]
    | cons a rest =>
      by_cases ha : pyIsSpace a = true
      · rw [collapseWsAux, if_pos ha]
        rw [List.chain'_cons']
        refine ⟨?_, ih _⟩
        intro y hy
        have hne := collapseWsAux_head_not_space fuel (rest.dropWhile pyIsSpace)
          (fun b hb => head_dropWhile_not pyIsSpace hb) y hy
        exact fun hcon => hne hcon.2
      · rw [collapseWsAux, if_neg ha]
        rw [List.chain'_cons']
        refine ⟨?_, ih _⟩
        intro y _
        exact fun hcon => ha hcon.1

/-- C7 (counterexample): the normalizer's output is not always
single-space-delimited around bullets.  On the input of two adjacent
bullet markers the canonical output is bullet, space, space, bullet:
the leading bullet has no space before it (the strip removed it) and
the two bullets are separated by a two-space run. -/
theorem normalize_text_claim_counterexample :
    ¬ (singleSpaceRuns (normalize_text "••".data) ∧
       strictBulletSpaced (normalize_text "••".data)) := by
  intro hcl
  have he : normalize_text "••".data = ['•', ' ', ' ', '•'] := by decide
  have h2 := hcl.2
  rw [he] at h2
  have := (h2 [] [' ', ' ', '•'] rfl).1
  simp at this

/-- C7 (amended): the normalizer collapses every whitespace run to a
single space BEFORE bullet re-spacing; in the canonical output every
whitespace character is a plain space and every bullet marker is
immediately preceded and followed by a space except where the final
strip removed it at the start or end of the output (runs of more than
one space can occur only adjacent to bullets). -/
theorem normalize_text_bullet_spacing (raw : Str) :
    List.Chain' bulletOK (normalize_text raw) ∧
    (∀ c ∈ normalize_text raw, pyIsSpace c = true → c = ' ') ∧
    singleSpaceRuns (collapseWs (removeNull (replaceFFFD raw))) := by
  refine ⟨?_, ?_, ?_⟩
  · exact chain'_bulletOK_stripWs (chain'_bulletOK_respaceBullets _)
  · intro c hc hsp
    have hc' := mem_stripWs hc
    exact respaceBullets_space_only
      (fun d hd hdsp => collapseWsAux_space_only _ _ d hd hdsp) c hc' hsp
  · exact chain'_singleSpace_collapseWsAux _ _

theorem pairwise_mono_mem {α : Type} {R S : α → α → Prop} :
    ∀ {l : List α}, (∀ a ∈ l, ∀ b ∈ l, R a b → S a b) → l.Pairwise R → l.Pairwise S := by
  intro l
  induction l with
  | nil => intro _ _; exact List.Pairwise.nil
  | cons x xs ih =>
    intro himp hp
    rcases List.pairwise_cons.mp hp with ⟨hx, hxs⟩
    refine List.pairwise_cons.mpr ⟨?_, ?_⟩
    · intro b hb
      exact himp x (List.mem_cons_self _ _) b (List.mem_cons_of_mem _ hb) (hx b hb)
    · exact ih (fun a ha b hb => himp a (List.mem_cons_of_mem _ ha)
        b (List.mem_cons_of_mem _ hb)) hxs

theorem firstIdx_append_of_mem {a : Str} :
    ∀ {p : List Str} (q : List Str), a ∈ p → firstIdx a (p ++ q) = firstIdx a p := by
  intro p
  induction p with
  | nil => intro q h; simp at h
  | cons x p' ih =>
    intro q h
    by_cases hx : x = a
    · simp [firstIdx, hx]
    · have h' : a ∈ p' := by
        rcases List.mem_cons.mp h with h1 | h1
        · exact absurd h1.symm hx
        · exact h1
      simp [firstIdx, hx, ih q h']

theorem firstIdx_append_self_of_not_mem {a : Str} :
    ∀ {p : List Str}, a ∉ p → firstIdx a (p ++ [a]) = p.length := by
  intro p
  induction p with
  | nil => intro _; simp [firstIdx]
  | cons x p' ih =>
    intro h
    have hx : ¬ x = a := fun hxa => h (hxa ▸ List.mem_cons_self _ _)
    have h' : a ∉ p' := fun ha => h (List.mem_cons_of_mem _ ha)
    simp [firstIdx, hx, ih h']

theorem firstIdx_lt_length_of_mem {a : Str} :
    ∀ {p : List Str}, a ∈ p → firstIdx a p < p.length := by
  intro p
  induction p with
  | nil => intro h; simp at h
  | cons x p' ih =>
    intro h
    by_cases hx : x = a
    · simp [firstIdx, hx]
    · have h' : a ∈ p' := by
        rcases List.mem_cons.mp h with h1 | h1
        · exact absurd h1.symm hx
        · exact h1
      simp only [firstIdx, hx, ite_false, List.length_cons]
      exact Nat.succ_lt_succ (ih h')

theorem map_fst_bump_update (acc : List (Str × Nat)) (w : Str) :
    ((acc.map (fun p => if p.1 = w then (p.1, p.2 + 1) else p)).map Prod.fst) =
      acc.map Prod.fst := by
  induction acc with
  | nil => rfl
  | cons a l ih =>
    simp only [List.map_cons, ih, List.cons.injEq, and_true]
    by_cases h : a.1 = w <;> simp [h]

theorem bump_invariant (p : List Str) (acc : List (Str × Nat)) (w : Str)
    (h1 : (acc.map Prod.fst).Nodup)
    (h2 : ∀ v, v ∈ acc.map Prod.fst ↔ v ∈ p)
    (h3 : ∀ q ∈ acc, q.2 = p.count q.1)
    (h4 : acc.Pairwise (fun a b => firstIdx a.1 p < firstIdx b.1 p)) :
    ((bump acc w).map Prod.fst).Nodup ∧
    (∀ v, v ∈ (bump acc w).map Prod.fst ↔ v ∈ p ++ [w]) ∧
    (∀ q ∈ bump acc w, q.2 = (p ++ [w]).count q.1) ∧
    (bump acc w).Pairwise
      (fun a b => firstIdx a.1 (p ++ [w]) < firstIdx b.1 (p ++ [w])) := by
  by_cases hw : w ∈ acc.map Prod.fst
  · have hwp : w ∈ p := (h2 w).mp hw
    rw [bump, if_pos hw]
    refine ⟨?_, ?_, ?_, ?_⟩
    · rw [map_fst_bump_update]
      exact h1
    · intro v
      rw [map_fst_bump_update, List.mem_append, List.mem_singleton, h2 v]
      constructor
      · exact Or.inl
      · rintro (hv | rfl)
        · exact hv
        · exact hwp
    · intro q hq
      rcases List.mem_map.mp hq with ⟨r, hr, hqr⟩
      have hr2 := h3 r hr
      by_cases hrw : r.1 = w
      · rw [if_pos hrw] at hqr
        rw [← hqr]
        simp only [List.count_append, hrw, hr2]
        simp [hrw]
      · rw [if_neg hrw] at hqr
        rw [← hqr]
        simp only [List.count_append, hr2]
        have : List.count r.1 [w] = 0 := by
          rw [List.count_eq_zero]
          simp
          exact fun h => hrw h
        omega
    · rw [List.pairwise_map]
      refine pairwise_mono_mem ?_ h4
      intro a ha b hb hr
      have ha1 : a.1 ∈ p := (h2 a.1).mp (List.mem_map_of_mem Prod.fst ha)
      have hb1 : b.1 ∈ p := (h2 b.1).mp (List.mem_map_of_mem Prod.fst hb)
      have hafst : (if a.1 = w then (a.1, a.2 + 1) else a).1 = a.1 := by
        by_cases h : a.1 = w <;> simp [h]
      have hbfst : (if b.1 = w then (b.1, b.2 + 1) else b).1 = b.1 := by
        by_cases h : b.1 = w <;> simp [h]
      rw [hafst, hbfst, firstIdx_append_of_mem _ ha1, firstIdx_append_of_mem _ hb1]
      exact hr
  · have hwp : w ∉ p := fun h => hw ((h2 w).mpr h)
    rw [bump, if_neg hw]
    refine ⟨?_, ?_, ?_, ?_⟩
    · rw [List.map_append]
      rw [List.nodup_append]
      refine ⟨h1, List.nodup_singleton _, ?_⟩
      intro a ha hb
      simp at hb
      subst hb
      exact hw ha
    · intro v
      rw [List.map_append, List.mem_append, List.map_singleton, List.mem_singleton,
        List.mem_append, List.mem_singleton, h2 v]
    · intro q hq
      rcases List.mem_append.mp hq with hq' | hq'
      · have hq2 := h3 q hq'
        have hqw : ¬ q.1 = w := by
          intro h
          exact hw (h ▸ List.mem_map_of_mem Prod.fst hq')
        rw [List.count_append, hq2]
        have : List.count q.1 [w] = 0 := by
          rw [List.count_eq_zero]
          simp
          exact fun h => hqw h
        omega
      · rw [List.mem_singleton] at hq'
        subst hq'
        simp only [List.count_append]
        have h0 : p.count w = 0 := List.count_eq_zero.mpr hwp
        simp [h0]
    · rw [List.pairwise_append]
      refine ⟨?_, List.pairwise_singleton _ _, ?_⟩
      · refine pairwise_mono_mem ?_ h4
        intro a ha b hb hr
        have ha1 : a.1 ∈ p := (h2 a.1).mp (List.mem_map_of_mem Prod.fst ha)
        have hb1 : b.1 ∈ p := (h2 b.1).mp (List.mem_map_of_mem Prod.fst hb)
        rw [firstIdx_append_of_mem _ ha1, firstIdx_append_of_mem _ hb1]
        exact hr
      · intro a ha b hb
        rw [List.mem_singleton] at hb
        subst hb
        have ha1 : a.1 ∈ p := (h2 a.1).mp (List.mem_map_of_mem Prod.fst ha)
        rw [firstIdx_append_of_mem _ ha1, firstIdx_append_self_of_not_mem hwp]
        exact firstIdx_lt_length_of_mem ha1

theorem foldl_bump_invariant : ∀ (ws p : List Str) (acc : List (Str × Nat)),
    ((acc.map Prod.fst).Nodup ∧
     (∀ v, v ∈ acc.map Prod.fst ↔ v ∈ p) ∧
     (∀ q ∈ acc, q.2 = p.count q.1) ∧
     acc.Pairwise (fun a b => firstIdx a.1 p < firstIdx b.1 p)) →
    (((ws.foldl bump acc).map Prod.fst).Nodup ∧
     (∀ v, v ∈ (ws.foldl bump acc).map Prod.fst ↔ v ∈ p ++ ws) ∧
     (∀ q ∈ ws.foldl bump acc, q.2 = (p ++ ws).count q.1) ∧
     (ws.foldl bump acc).Pairwise
       (fun a b => firstIdx a.1 (p ++ ws) < firstIdx b.1 (p ++ ws))) := by
  intro ws
  induction ws with
  | nil =>
    intro p acc h
    simpa using h
  | cons w ws' ih =>
    intro p acc h
    obtain ⟨h1, h2, h3, h4⟩ := h
    have hstep := bump_invariant p acc w h1 h2 h3 h4
    have := ih (p ++ [w]) (bump acc w)
      ⟨hstep.1, hstep.2.1, hstep.2.2.1, hstep.2.2.2⟩
    simpa [List.append_assoc] using this

theorem countsOf_good (ws : List Str) :
    ((countsOf ws).map Prod.fst).Nodup ∧
    (∀ v, v ∈ (countsOf ws).map Prod.fst ↔ v ∈ ws) ∧
    (∀ q ∈ countsOf ws, q.2 = ws.count q.1) ∧
    (countsOf ws).Pairwise (fun a b => firstIdx a.1 ws < firstIdx b.1 ws) := by
  have := foldl_bump_invariant ws [] []
    (by refine ⟨List.nodup_nil, ?_, ?_, List.Pairwise.nil⟩ <;> simp)
  simpa [countsOf] using this

theorem nodup_length_eq_of_mem_iff {l₁ l₂ : List Str} (h₁ : l₁.Nodup)
    (h₂ : l₂.Nodup) (h : ∀ a, a ∈ l₁ ↔ a ∈ l₂) : l₁.length = l₂.length :=
  ((List.perm_ext_iff_of_nodup h₁ h₂).mpr h).length_eq

/-- C1: for every input text and every top_k, the keyword ranker
returns exactly the surviving tokens' distinct words, ranked: (a) an
empty survivor stream yields the empty sequence (and the function is
total, so it never raises); (b) the output length is top_k truncated at
the number of distinct surviving tokens; (c) every output word is a
surviving token; (d) along the output, frequency strictly decreases or,
on ties, the first-occurrence index in the surviving token stream
strictly increases (stable sort, descending); (e) every surviving word
left out ranks no higher than every word included. -/
theorem extract_keywords_ranking_spec (text : Str) (top_k : Nat) :
    (survivingTokens text = [] → extract_keywords text top_k = []) ∧
    (extract_keywords text top_k).length =
      min top_k (survivingTokens text).dedup.length ∧
    (∀ w ∈ extract_keywords text top_k, w ∈ survivingTokens text) ∧
    (extract_keywords text top_k).Pairwise (fun a b =>
      (survivingTokens text).count b < (survivingTokens text).count a ∨
      ((survivingTokens text).count a = (survivingTokens text).count b ∧
        firstIdx a (survivingTokens text) < firstIdx b (survivingTokens text))) ∧
    (∀ w ∈ survivingTokens text, w ∉ extract_keywords text top_k →
      ∀ v ∈ extract_keywords text top_k,
        (survivingTokens text).count w < (survivingTokens text).count v ∨
        ((survivingTokens text).count w = (survivingTokens text).count v ∧
          firstIdx v (survivingTokens text) < firstIdx w (survivingTokens text))) := by
  by_cases he : survivingTokens text = []
  · have hek : extract_keywords text top_k = [] := by simp [extract_keywords, he]
    refine ⟨fun _ => hek, ?_, ?_, ?_, ?_⟩
    · rw [hek, he]
      simp
    · intro w hw
      rw [hek] at hw
      simp at hw
    · rw [hek]
      exact List.Pairwise.nil
    · intro w hw
      rw [he] at hw
      simp at hw
  · have hek : extract_keywords text top_k =
        ((sortDesc (countsOf (survivingTokens text))).take top_k).map Prod.fst := by
      simp [extract_keywords, he]
    obtain ⟨hnodup, hmem, hcount, hidx⟩ := countsOf_good (survivingTokens text)
    have hperm := sortDesc_perm (countsOf (survivingTokens text))
    have hT := sortDesc_pairwise hidx
    have hT' : (sortDesc (countsOf (survivingTokens text))).Pairwise
        (fun a b => (survivingTokens text).count b.1 < (survivingTokens text).count a.1 ∨
          ((survivingTokens text).count a.1 = (survivingTokens text).count b.1 ∧
            firstIdx a.1 (survivingTokens text) < firstIdx b.1 (survivingTokens text))) := by
      refine pairwise_mono_mem ?_ hT
      intro a ha b hb hr
      have ha' : a.2 = (survivingTokens text).count a.1 := hcount a (hperm.subset ha)
      have hb' : b.2 = (survivingTokens text).count b.1 := hcount b (hperm.subset hb)
      rcases hr with h | ⟨h, h2⟩
      · exact Or.inl (ha' ▸ hb' ▸ h)
      · exact Or.inr ⟨ha' ▸ hb' ▸ h, h2⟩
    refine ⟨fun h => absurd h he, ?_, ?_, ?_, ?_⟩
    · rw [hek, List.length_map, List.length_take]
      have h1 : (sortDesc (countsOf (survivingTokens text))).length =
          (countsOf (survivingTokens text)).length := hperm.length_eq
      have h2 : (countsOf (survivingTokens text)).length =
          ((countsOf (survivingTokens text)).map Prod.fst).length :=
        (List.length_map _ _).symm
      have h3 : ((countsOf (survivingTokens text)).map Prod.fst).length =
          (survivingTokens text).dedup.length :=
        nodup_length_eq_of_mem_iff hnodup (List.nodup_dedup _)
          (fun a => (hmem a).trans (List.mem_dedup).symm)
      rw [h1, h2, h3]
    · intro w hw
      rw [hek] at hw
      obtain ⟨q, hq, hq1⟩ := List.mem_map.mp hw
      have hq' : q ∈ countsOf (survivingTokens text) :=
        hperm.subset (List.take_subset _ _ hq)
      rw [← hq1]
      exact (hmem q.1).mp (List.mem_map_of_mem Prod.fst hq')
    · rw [hek, List.pairwise_map]
      exact hT'.sublist (List.take_sublist _ _)
    · intro w hwtoks hwout v hvout
      rw [hek] at hwout hvout
      have hwkeys : w ∈ (countsOf (survivingTokens text)).map Prod.fst :=
        (hmem w).mpr hwtoks
      obtain ⟨qw, hqw, hqw1⟩ := List.mem_map.mp hwkeys
      have hqwS : qw ∈ sortDesc (countsOf (survivingTokens text)) :=
        hperm.mem_iff.mpr hqw
      have hqwS' : qw ∈ (sortDesc (countsOf (survivingTokens text))).take top_k ++
          (sortDesc (countsOf (survivingTokens text))).drop top_k := by
        rw [List.take_append_drop]
        exact hqwS
      have hqwdrop : qw ∈ (sortDesc (countsOf (survivingTokens text))).drop top_k := by
        rcases List.mem_append.mp hqwS' with h | h
        · exfalso
          apply hwout
          rw [← hqw1]
          exact List.mem_map_of_mem Prod.fst h
        · exact h
      obtain ⟨qv, hqv, hqv1⟩ := List.mem_map.mp hvout
      have hTsplit : ((sortDesc (countsOf (survivingTokens text))).take top_k ++
          (sortDesc (countsOf (survivingTokens text))).drop top_k).Pairwise
          (fun a b => (survivingTokens text).count b.1 < (survivingTokens text).count a.1 ∨
            ((survivingTokens text).count a.1 = (survivingTokens text).count b.1 ∧
              firstIdx a.1 (survivingTokens text) < firstIdx b.1 (survivingTokens text))) := by
        rw [List.take_append_drop]
        exact hT'
      have hcross := (List.pairwise_append.mp hTsplit).2.2 qv hqv qw hqwdrop
      rw [hqw1, hqv1] at hcross
      rcases hcross with h | ⟨h, h2⟩
      · exact Or.inl h
      · exact Or.inr ⟨h.symm, h2⟩

/-- C1 (witness): the characterization instantiated at a concrete job
description and top_k = 2. -/
theorem extract_keywords_ranking_spec_witness :
    (survivingTokens "python java python sql".data = [] →
      extract_keywords "python java python sql".data 2 = []) ∧
    (extract_keywords "python java python sql".data 2).length =
      min 2 (survivingTokens "python java python sql".data).dedup.length ∧
    (∀ w ∈ extract_keywords "python java python sql".data 2,
      w ∈ survivingTokens "python java python sql".data) ∧
    (extract_keywords "python java python sql".data 2).Pairwise (fun a b =>
      (survivingTokens "python java python sql".data).count b <
        (survivingTokens "python java python sql".data).count a ∨
      ((survivingTokens "python java python sql".data).count a =
        (survivingTokens "python java python sql".data).count b ∧
        firstIdx a (survivingTokens "python java python sql".data) <
          firstIdx b (survivingTokens "python java python sql".data))) ∧
    (∀ w ∈ survivingTokens "python java python sql".data,
      w ∉ extract_keywords "python java python sql".data 2 →
      ∀ v ∈ extract_keywords "python java python sql".data 2,
        (survivingTokens "python java python sql".data).count w <
          (survivingTokens "python java python sql".data).count v ∨
        ((survivingTokens "python java python sql".data).count w =
          (survivingTokens "python java python sql".data).count v ∧
          firstIdx v (survivingTokens "python java python sql".data) <
            firstIdx w (survivingTokens "python java python sql".data))) :=
  extract_keywords_ranking_spec "python java python sql".data 2

/-- C10: for every input text and every top_k, the ranked keyword
sequence contains no duplicate terms. -/
theorem extract_keywords_nodup (text : Str) (top_k : Nat) :
    (extract_keywords text top_k).Nodup := by
  by_cases he : survivingTokens text = []
  · simp [extract_keywords, he]
  · have hek : extract_keywords text top_k =
        ((sortDesc (countsOf (survivingTokens text))).take top_k).map Prod.fst := by
      simp [extract_keywords, he]
    rw [hek]
    obtain ⟨hnodup, _, _, _⟩ := countsOf_good (survivingTokens text)
    have hperm := (sortDesc_perm (countsOf (survivingTokens text))).map Prod.fst
    have hSnodup : ((sortDesc (countsOf (survivingTokens text))).map Prod.fst).Nodup :=
      hperm.nodup_iff.mpr hnodup
    rw [List.map_take]
    exact List.Nodup.sublist (List.take_sublist _ _) hSnodup

/-- C8: a tailoring request with a field empty after trimming is
rejected with the all-fields-required error and an empty event trace
(no keyword ranking or rendering occurs); with all fields present but a
missing resume template it is rejected with the specific
missing-resume-template message, and with a missing cover-letter
template with the specific missing-cover-letter-template message, in
each case before any keyword ranking occurs. -/
theorem process_job_validation_order (env : PipelineEnv) :
    ((stripWs env.form.job_title = [] ∨ stripWs env.form.company_name = [] ∨
        stripWs env.form.job_description = []) →
      process_job env = (.error "All fields are required".data, [])) ∧
    (¬ (stripWs env.form.job_title = [] ∨ stripWs env.form.company_name = [] ∨
        stripWs env.form.job_description = []) →
      env.resume_template = none →
      process_job env =
        (.error "Resume template not found. Please upload a resume first.".data, [])) ∧
    (¬ (stripWs env.form.job_title = [] ∨ stripWs env.form.company_name = [] ∨
        stripWs env.form.job_description = []) →
      ∀ r, env.resume_template = some r →
      env.cover_template = none →
      process_job env =
        (.error "Cover letter template not found. Please upload a cover letter first.".data,
          [])) := by
  refine ⟨?_, ?_, ?_⟩
  · intro h
    simp [process_job, if_pos h]
  · intro h hr
    simp [process_job, if_neg h, hr]
  · intro h r hr hc
    simp [process_job, if_neg h, hr, hc]

/-- C8 (witness): a request whose job title is empty after trimming is
rejected with the all-fields-required error and an empty trace. -/
theorem process_job_validation_order_witness :
    (stripWs "".data = [] ∨ stripWs "C".data = [] ∨ stripWs "D".data = []) ∧
    process_job
      ⟨⟨"".data, "C".data, "D".data⟩, none, none, .transportError, true, true⟩ =
      (.error "All fields are required".data, []) :=
  ⟨Or.inl (by decide),
    (process_job_validation_order
      ⟨⟨"".data, "C".data, "D".data⟩, none, none, .transportError, true, true⟩).1
      (Or.inl (by decide))⟩

/-- C9: when the external text-generator call fails (transport error or
non-success status), cover-letter generation returns the human-readable
error string instead of raising, and the orchestrator completes the
pipeline: it succeeds with that string as the cover-letter body and the
trace shows both renders and the bundling step. -/
theorem cover_letter_failure_graceful (env : PipelineEnv)
    (resume_text cover_template : Str)
    (h1 : ¬ (stripWs env.form.job_title = [] ∨ stripWs env.form.company_name = [] ∨
        stripWs env.form.job_description = []))
    (hr : env.resume_template = some resume_text)
    (hc : env.cover_template = some cover_template)
    (hf : ollamaFailed env.ollama)
    (hrok : env.resume_render_ok = true)
    (hcok : env.cover_render_ok = true) :
    generate_cover_with_ollama resume_text cover_template
        (stripWs env.form.job_title) (stripWs env.form.company_name)
        (stripWs env.form.job_description) env.ollama =
      ollamaFailureMessage env.ollama ∧
    process_job env =
      (.success (extract_keywords (stripWs env.form.job_description) 10)
        (polish_resume resume_text
          (extract_keywords (stripWs env.form.job_description) 10)
          (stripWs env.form.job_title) (stripWs env.form.company_name))
        (ollamaFailureMessage env.ollama),
       [.rankKeywords, .polishResume, .generateCover,
        .renderResume, .renderCover, .bundle]) := by
  have hgen : generate_cover_with_ollama resume_text cover_template
      (stripWs env.form.job_title) (stripWs env.form.company_name)
      (stripWs env.form.job_description) env.ollama =
      ollamaFailureMessage env.ollama := by
    cases hcase : env.ollama with
    | ok s resp =>
      have hf' : ¬ s = 200 := by
        rw [hcase] at hf
        exact hf
      simp only [generate_cover_with_ollama, ollamaFailureMessage, if_neg hf']
    | transportError => rfl
  refine ⟨hgen, ?_⟩
  simp only [process_job, if_neg h1, hr, hc, hrok, hcok, Bool.and_self, ite_true, hgen]

/-- C9 (witness): with valid fields, both templates present, renders
succeeding and the text generator answering HTTP 500, the pipeline
succeeds end to end with the error string as cover-letter body. -/
theorem cover_letter_failure_graceful_witness :
    ollamaFailed (OllamaResult.ok 500 none) ∧
    (generate_cover_with_ollama "SKILLS: x".data "Dear".data
        (stripWs "T".data) (stripWs "C".data) (stripWs "python dev".data)
        (OllamaResult.ok 500 none) =
      ollamaFailureMessage (OllamaResult.ok 500 none) ∧
     process_job
       ⟨⟨"T".data, "C".data, "python dev".data⟩, some "SKILLS: x".data,
         some "Dear".data, OllamaResult.ok 500 none, true, true⟩ =
       (.success (extract_keywords (stripWs "python dev".data) 10)
         (polish_resume "SKILLS: x".data
           (extract_keywords (stripWs "python dev".data) 10)
           (stripWs "T".data) (stripWs "C".data))
         (ollamaFailureMessage (OllamaResult.ok 500 none)),
        [.rankKeywords, .polishResume, .generateCover,
         .renderResume, .renderCover, .bundle])) :=
  ⟨by decide,
    cover_letter_failure_graceful
      ⟨⟨"T".data, "C".data, "python dev".data⟩, some "SKILLS: x".data,
        some "Dear".data, OllamaResult.ok 500 none, true, true⟩
      "SKILLS: x".data "Dear".data (by decide) rfl rfl (by decide) rfl rfl⟩
